import Mathlib

/-!
Verification of the coinbag duplicate-row web application.

Shallow embedding of `src/app.py`, a Flask application that

* parses an uploaded CSV file into a table (`pd.read_csv`),
* computes the subset of fully-duplicated rows
  (`df[df.duplicated(keep=False)]`),
* stores that subset, serialized back to CSV (`to_csv(index=False)`),
  in the per-session store (keys `has_duplicates` / `duplicates_csv`),
* and serves the stored bytes from a separate download route.

Modelling conventions:

* Cell values are modelled as their raw text.  The spec (§4.1) states that
  raw-string comparison is an acceptable equivalent of the source's
  type-inferred comparison as long as load and comparison agree, which they
  do here.  Consequently the CSV layer is modelled without the quoting that
  pandas applies to cells containing delimiter characters; theorems about
  serialization therefore carry explicit delimiter-freeness hypotheses.
* `pd.read_csv` is modelled line-by-line: blank lines are skipped
  (pandas' `skip_blank_lines` default), the first line is the header, a body
  row whose field count differs from the header's is a parse error, and
  fully empty content is a parse error (pandas' `EmptyDataError`).
* Flask session state is the pair of keys the source uses; request handlers
  are pure functions from session state (and request data) to a response
  and the updated session state.
-/

namespace Coinbag

/-- Split a character list at every occurrence of the delimiter `c`.
Always returns at least one (possibly empty) part; this is the semantics of
CSV field and line splitting used by the loader. -/
def splitOnChar (c : Char) : List Char → List (List Char)
  | [] => [[]]
  | x :: xs =>
    match splitOnChar c xs with
    | [] => [[]]
    | y :: ys => if x = c then [] :: y :: ys else (x :: y) :: ys

/-- Join parts with the delimiter `c` between consecutive parts
(inverse of `splitOnChar` on delimiter-free parts). -/
def joinChars (c : Char) : List (List Char) → List Char
  | [] => []
  | [p] => p
  | p :: q :: rest => p ++ c :: joinChars c (q :: rest)

/-- Split a string at every occurrence of the delimiter `c`. -/
def splitField (c : Char) (s : String) : List String :=
  (splitOnChar c s.toList).map String.mk

/-- A parsed table: the ordered column names of the header row and the
ordered data rows, each an ordered list of cell values (schema order). -/
structure Table where
  cols : List String
  rows : List (List String)
deriving Repr, DecidableEq

/-- Pandas `DataFrame.empty`: true when the table has no rows or no
columns. -/
def Table.isEmptyTable (t : Table) : Bool :=
  t.rows.isEmpty || t.cols.isEmpty

/-- Table Loader, embedding `pd.read_csv` at line 34 of `src/app.py`:
split the content into lines, skip blank lines, read the header, and read
each remaining line as a data row; fail on empty content or on a row whose
field count differs from the header's. -/
def parseCSV (content : String) : Except String Table :=
  match (splitField '\n' content).filter (fun l => l ≠ "") with
  | [] => .error "No columns to parse from file"
  | header :: body =>
    let cols := splitField ',' header
    let rows := body.map (splitField ',')
    if rows.all (fun r => r.length = cols.length) then
      .ok { cols := cols, rows := rows }
    else
      .error "Error tokenizing data"

/-- Export Serializer, embedding `to_csv(index=False)` at line 43 of
`src/app.py`: the header line followed by one line per row, each line the
comma-joined cells, with a trailing newline. -/
def toCSV (t : Table) : String :=
  String.mk
    (joinChars '\n'
      ((t.cols :: t.rows).map (fun r => joinChars ',' (r.map String.toList)))
      ++ ['\n'])

/-- The duplicate mask `df.duplicated(keep=False)` at line 38 of
`src/app.py`: row `i` is flagged iff its full row value occurs at least
twice in the table. -/
def dupFlags (t : Table) : List Bool :=
  t.rows.map (fun r => decide (2 ≤ t.rows.count r))

/-- The duplicate subset `df[df.duplicated(keep=False)]` at line 38 of
`src/app.py`: the rows whose full row value occurs at least twice, in
original order. -/
def duplicates (t : Table) : Table :=
  { cols := t.cols, rows := t.rows.filter (fun r => 2 ≤ t.rows.count r) }

/-- The Duplicate Partitioner's output on one table: the unchanged original
(`df` is never mutated by the source), the duplicate subset, and the number
of duplicated occurrences. -/
structure PartitionResult where
  original : Table
  dups : Table
  count : Nat
deriving Repr, DecidableEq

/-- The partition computed by `upload_file` (lines 34–38 of `src/app.py`). -/
def partition (t : Table) : PartitionResult :=
  { original := t, dups := duplicates t, count := (duplicates t).rows.length }

/-- Per-session state: the `has_duplicates` flag and the optional
`duplicates_csv` text blob, the only state outliving a request. -/
structure Session where
  has_duplicates : Bool
  duplicates_csv : Option String
deriving Repr, DecidableEq

/-- A fresh session: neither key set (`session.get` returns the default). -/
def initialSession : Session :=
  { has_duplicates := false, duplicates_csv := none }

/-- Outcome of the upload route: an error response with an HTTP status and
message, or the rendered results page carrying the original table, the
duplicate view (absent when no duplicates), and the `has_duplicates`
flag. -/
inductive UploadOutcome
  | err (status : Nat) (msg : String)
  | page (original : Table) (dupView : Option Table) (hasDups : Bool)
deriving Repr, DecidableEq

/-- The upload route `upload_file` (lines 22–58 of `src/app.py`).  The
request carries an optional file part (filename and raw content).  On a
parse failure the handler catches the exception and returns a 500 response;
only a successful parse touches the session: stores the serialized
duplicate subset when it is nonempty, clears it otherwise. -/
def upload_file (sess : Session) (file : Option (String × String)) :
    UploadOutcome × Session :=
  match file with
  | none => (.err 400 "No file part", sess)
  | some (fname, content) =>
    if fname = "" then (.err 400 "No selected file", sess)
    else
      match parseCSV content with
      | .error e => (.err 500 ("Error processing file: " ++ e), sess)
      | .ok df =>
        let dups := duplicates df
        let hasDups := !dups.isEmptyTable
        let sess' :=
          if hasDups then
            { has_duplicates := true, duplicates_csv := some (toCSV dups) }
          else
            { has_duplicates := false, duplicates_csv := none }
        (.page df (if hasDups then some dups else none) hasDups, sess')

/-- Outcome of the download route: an error response, or a served file with
a MIME type, an attachment filename, and the byte content. -/
inductive DownloadResult
  | err (status : Nat) (msg : String)
  | file (mimetype : String) (filename : String) (content : String)
deriving Repr, DecidableEq

/-- The download route `download_duplicates` (lines 61–86 of `src/app.py`):
400 when the `has_duplicates` flag is unset or false, 400 when the
`duplicates_csv` value is absent or empty (Python falsiness), otherwise the
stored text served as `duplicates.csv`.  The route never writes to the
session. -/
def download_duplicates (sess : Session) : DownloadResult :=
  if sess.has_duplicates = false then
    .err 400 "No duplicates found in the last uploaded file."
  else
    match sess.duplicates_csv with
    | none => .err 400 "Duplicate data not available. Please upload a file first."
    | some csv =>
      if csv = "" then
        .err 400 "Duplicate data not available. Please upload a file first."
      else
        .file "text/csv" "duplicates.csv" csv

/-- A session state is reachable when it arises from a fresh session by a
sequence of upload requests (downloads never change the session). -/
inductive Reachable : Session → Prop
  | init : Reachable initialSession
  | step (s : Session) (file : Option (String × String)) :
      Reachable s → Reachable (upload_file s file).2

/-- HTTP 4xx: a client-error status. -/
def isClientError (status : Nat) : Prop :=
  400 ≤ status ∧ status < 500

instance (status : Nat) : Decidable (isClientError status) := by
  unfold isClientError; infer_instance

/-! ## Helper lemmas about the CSV splitting and joining primitives -/

theorem splitOnChar_ne_nil (c : Char) (l : List Char) : splitOnChar c l ≠ [] := by
  cases l with
  | nil => simp [splitOnChar]
  | cons x xs =>
    simp only [splitOnChar]
    cases splitOnChar c xs with
    | nil => simp
    | cons y ys => dsimp only; split <;> simp

theorem splitOnChar_of_not_mem {c : Char} {l : List Char} (h : c ∉ l) :
    splitOnChar c l = [l] := by
  induction l with
  | nil => rfl
  | cons x xs ih =>
    have hx : ¬ x = c := fun e => h (by simp [e])
    have hxs : c ∉ xs := fun m => h (List.mem_cons_of_mem _ m)
    simp only [splitOnChar, ih hxs]
    simp [hx]

theorem splitOnChar_append_cons (c : Char) (p rest : List Char) (hp : c ∉ p) :
    splitOnChar c (p ++ c :: rest) = p :: splitOnChar c rest := by
  induction p with
  | nil =>
    simp only [List.nil_append, splitOnChar]
    cases h : splitOnChar c rest with
    | nil => exact absurd h (splitOnChar_ne_nil c rest)
    | cons y ys => simp
  | cons x xs ih =>
    have hx : ¬ x = c := fun e => hp (by simp [e])
    have hxs : c ∉ xs := fun m => hp (List.mem_cons_of_mem _ m)
    have h2 := ih hxs
    simp only [List.cons_append, splitOnChar, List.append_eq]
    rw [h2]
    simp [hx]

theorem splitOnChar_append_delim (c : Char) (l : List Char) :
    splitOnChar c (l ++ [c]) = splitOnChar c l ++ [[]] := by
  induction l with
  | nil => simp [splitOnChar]
  | cons x xs ih =>
    obtain ⟨y, ys, hys⟩ : ∃ y ys, splitOnChar c xs = y :: ys := by
      cases h : splitOnChar c xs with
      | nil => exact absurd h (splitOnChar_ne_nil c xs)
      | cons a as => exact ⟨a, as, rfl⟩
    simp only [List.cons_append, splitOnChar, List.append_eq]
    rw [ih, hys]
    simp only [List.cons_append]
    split <;> simp

theorem splitOnChar_joinChars (c : Char) (parts : List (List Char))
    (hne : parts ≠ []) (hc : ∀ p ∈ parts, c ∉ p) :
    splitOnChar c (joinChars c parts) = parts := by
  induction parts with
  | nil => exact absurd rfl hne
  | cons p ps ih =>
    cases ps with
    | nil => simpa [joinChars] using splitOnChar_of_not_mem (hc p (by simp))
    | cons q rest =>
      rw [joinChars, splitOnChar_append_cons c p _ (hc p (by simp))]
      rw [ih (by simp) (fun r hr => hc r (List.mem_cons_of_mem _ hr))]

theorem joinChars_ne_nil (c : Char) (parts : List (List Char))
    (hne : parts ≠ []) (h : ∀ p ∈ parts, p ≠ []) : joinChars c parts ≠ [] := by
  cases parts with
  | nil => exact absurd rfl hne
  | cons p ps =>
    cases ps with
    | nil => simpa [joinChars] using h p (by simp)
    | cons q rest => simp [joinChars]

theorem not_mem_joinChars {c d : Char} {parts : List (List Char)}
    (hd : d ≠ c) (h : ∀ p ∈ parts, d ∉ p) : d ∉ joinChars c parts := by
  induction parts with
  | nil => simp [joinChars]
  | cons p ps ih =>
    cases ps with
    | nil => simpa [joinChars] using h p (by simp)
    | cons q rest =>
      rw [joinChars]
      intro hm
      rcases List.mem_append.mp hm with hm | hm
      · exact h p (by simp) hm
      · rcases List.mem_cons.mp hm with hm | hm
        · exact hd hm
        · exact ih (fun r hr => h r (List.mem_cons_of_mem _ hr)) hm

/-! ## Helper lemmas about strings, the loader, and the serializer -/

theorem string_mk_toList (s : String) : String.mk s.toList = s := rfl

theorem string_toList_eq_nil_iff (s : String) : s.toList = [] ↔ s = "" := by
  constructor
  · intro h
    have h2 := congrArg String.mk h
    rwa [string_mk_toList] at h2
  · intro h
    rw [h]
    rfl

theorem toCSV_ne_empty (t : Table) : toCSV t ≠ "" := by
  intro h
  have h2 : (joinChars '\n'
      ((t.cols :: t.rows).map (fun r => joinChars ',' (r.map String.toList)))
      ++ ['\n']) = ([] : List Char) := congrArg String.toList h
  simp at h2

theorem parseCSV_cols_ne_nil {c : String} {t : Table}
    (hp : parseCSV c = .ok t) : t.cols ≠ [] := by
  unfold parseCSV at hp
  rcases hfl : (splitField '\n' c).filter (fun l => l ≠ "") with _ | ⟨h, body⟩ <;>
    rw [hfl] at hp
  · exact absurd hp (by simp)
  · dsimp only at hp
    split at hp
    · have ht : t = { cols := splitField ',' h, rows := body.map (splitField ',') } := by
        cases hp; rfl
      rw [ht]
      simp only [splitField]
      intro hmap
      exact splitOnChar_ne_nil ',' h.toList (List.map_eq_nil_iff.mp hmap)
    · exact absurd hp (by simp)

/-- In a table produced by the loader the pandas `empty` test degenerates to
the row list being empty, because the header always yields at least one
column. -/
theorem parseCSV_isEmptyTable {c : String} {t : Table}
    (hp : parseCSV c = .ok t) :
    (duplicates t).isEmptyTable = (duplicates t).rows.isEmpty := by
  have hcols : t.cols ≠ [] := parseCSV_cols_ne_nil hp
  unfold Table.isEmptyTable
  have h2 : (duplicates t).cols.isEmpty = false := by
    simp only [duplicates]
    simpa [List.isEmpty_iff] using hcols
  rw [h2, Bool.or_false]

/-! ## Helper lemmas about reachable session states -/

/-- Every reachable session state is either the cleared state or a stored
nonempty CSV blob with the flag set. -/
theorem reachable_cases {s : Session} (h : Reachable s) :
    s = { has_duplicates := false, duplicates_csv := none } ∨
    ∃ b, s = { has_duplicates := true, duplicates_csv := some b } ∧ b ≠ "" := by
  induction h with
  | init => exact Or.inl rfl
  | step s' f _ ih =>
    match f with
    | none => exact ih
    | some (fname, content) =>
      by_cases hf : fname = ""
      · simp only [upload_file, hf, if_pos rfl]
        exact ih
      · rcases hp : parseCSV content with e | df
        · simp only [upload_file, if_neg hf, hp]
          exact ih
        · simp only [upload_file, if_neg hf, hp]
          by_cases hd : (duplicates df).isEmptyTable
          · simp only [hd]
            exact Or.inl rfl
          · simp only [Bool.not_eq_true] at hd
            simp only [hd]
            exact Or.inr ⟨toCSV (duplicates df), rfl, toCSV_ne_empty _⟩

/-! ## Helper lemma: two occurrences of a row value and distinct indices -/

theorem two_le_count_iff_exists_ne {α : Type} [BEq α] [LawfulBEq α]
    (l : List α) (i : Fin l.length) :
    2 ≤ l.count (l.get i) ↔
      ∃ j : Fin l.length, j ≠ i ∧ l.get j = l.get i := by
  have hcnt : l.count (l.get i) =
      ((List.finRange l.length).filter
        (fun j => l.get j == l.get i)).length := by
    rw [List.count_eq_countP]
    have h0 : List.countP (fun x => x == l.get i) l =
        List.countP (fun x => x == l.get i)
          ((List.finRange l.length).map l.get) :=
      congrArg _ (List.finRange_map_get l).symm
    rw [h0, List.countP_map, List.countP_eq_length_filter]
    rfl
  rw [hcnt]
  constructor
  · intro h2
    by_contra hno
    push_neg at hno
    have hall : ∀ j ∈ (List.finRange l.length).filter
        (fun j => l.get j == l.get i), j = i := by
      intro j hj
      rcases List.mem_filter.mp hj with ⟨-, hbeq⟩
      by_contra hne
      exact hno j hne (by simpa using hbeq)
    rcases hlist : (List.finRange l.length).filter
        (fun j => l.get j == l.get i) with - | ⟨a, - | ⟨b, bs⟩⟩
    · rw [hlist] at h2; simp at h2
    · rw [hlist] at h2; simp at h2
    · have ha := hall a (hlist ▸ List.mem_cons_self _ _)
      have hb := hall b (hlist ▸ List.mem_cons_of_mem _ (List.mem_cons_self _ _))
      have hnd : ((List.finRange l.length).filter
          (fun j => l.get j == l.get i)).Nodup :=
        (List.filter_sublist _).nodup (List.nodup_finRange _)
      rw [hlist, List.nodup_cons] at hnd
      exact hnd.1 (by rw [ha, ← hb]; exact List.mem_cons_self _ _)
  · rintro ⟨j, hne, hj⟩
    have hi : i ∈ (List.finRange l.length).filter
        (fun k => l.get k == l.get i) :=
      List.mem_filter.mpr ⟨List.mem_finRange i, by simp⟩
    have hjm : j ∈ (List.finRange l.length).filter
        (fun k => l.get k == l.get i) :=
      List.mem_filter.mpr ⟨List.mem_finRange j, by simpa using hj⟩
    have hj2 : j ∈ ((List.finRange l.length).filter
        (fun k => l.get k == l.get i)).erase i :=
      (List.mem_erase_of_ne hne).mpr hjm
    have h1 : 1 ≤ (((List.finRange l.length).filter
        (fun k => l.get k == l.get i)).erase i).length :=
      List.length_pos.mpr (List.ne_nil_of_mem hj2)
    have h3 := List.length_erase_of_mem hi
    omega

/-! ## Claim theorems -/

/-- C1: the duplicate subset computed by the upload operation contains row
`i` iff some other index `j ≠ i` holds an equal row (all columns equal,
i.e. equal canonical keys); unique rows are excluded, and every occurrence
of a repeated row is included (the subset retains the full occurrence count
of every flagged row value). -/
theorem claim1_duplicates_iff (t : Table) (i : Fin t.rows.length) :
    (t.rows.get i ∈ (partition t).dups.rows ↔
      ∃ j : Fin t.rows.length, j ≠ i ∧ t.rows.get j = t.rows.get i) ∧
    ((∃ j : Fin t.rows.length, j ≠ i ∧ t.rows.get j = t.rows.get i) →
      (partition t).dups.rows.count (t.rows.get i) =
        t.rows.count (t.rows.get i)) := by
  constructor
  · rw [← two_le_count_iff_exists_ne]
    simp only [partition, duplicates, List.mem_filter, decide_eq_true_eq]
    exact and_iff_right (List.get_mem _ _ _)
  · intro hex
    have hcnt : 2 ≤ t.rows.count (t.rows.get i) :=
      (two_le_count_iff_exists_ne t.rows i).mpr hex
    simp only [partition, duplicates]
    exact List.count_filter (by simpa using hcnt)

/-- C3 (amended): on an upload whose content fails to parse, the handler
returns a 500 server-error response carrying a human-readable message, and
the session (hence the ExportBuffer) is left exactly as it was. -/
theorem claim3_parse_error (s : Session) (fn c e : String)
    (hfn : fn ≠ "") (hp : parseCSV c = .error e) :
    upload_file s (some (fn, c)) =
      (.err 500 ("Error processing file: " ++ e), s) := by
  simp [upload_file, if_neg hfn, hp]

/-- C3 (counterexample): on a concrete malformed upload (a body row with
more fields than the header) the response status is 500, which is not a
client-error (4xx) status, contradicting the claim as stated. -/
theorem claim3_counterexample :
    upload_file initialSession (some ("data.csv", "A,B\n1,2,3")) =
      (.err 500 "Error processing file: Error tokenizing data",
        initialSession) ∧
    ¬ isClientError 500 := by
  exact ⟨rfl, by decide⟩

theorem claim3_witness :
    upload_file initialSession (some ("data.csv", "A,B\nx,y,z")) =
      (.err 500 ("Error processing file: " ++ "Error tokenizing data"),
        initialSession) :=
  claim3_parse_error initialSession "data.csv" "A,B\nx,y,z"
    "Error tokenizing data" (by decide) rfl

/-- C5: on the concrete table with columns (X,Y) and rows
`[("a",1),("b",2),("a",1),("c",3)]`, the partition flags exactly rows 0 and
2 (both occurrences of `("a",1)`), has count 2, and keeps all 4 rows in the
original view. -/
theorem claim5_concrete :
    (partition ⟨["X", "Y"],
        [["a", "1"], ["b", "2"], ["a", "1"], ["c", "3"]]⟩).dups.rows =
      [["a", "1"], ["a", "1"]] ∧
    dupFlags ⟨["X", "Y"], [["a", "1"], ["b", "2"], ["a", "1"], ["c", "3"]]⟩ =
      [true, false, true, false] ∧
    (partition ⟨["X", "Y"],
        [["a", "1"], ["b", "2"], ["a", "1"], ["c", "3"]]⟩).count = 2 ∧
    (partition ⟨["X", "Y"],
        [["a", "1"], ["b", "2"], ["a", "1"], ["c", "3"]]⟩).original.rows =
      [["a", "1"], ["b", "2"], ["a", "1"], ["c", "3"]] := by
  refine ⟨by decide, by decide, by decide, rfl⟩

/-- C7: the rows of the duplicate subset are a stable subsequence of the
input table's rows — original relative order, never regrouped or
re-sorted. -/
theorem claim7_stable_order (t : Table) :
    (partition t).dups.rows.Sublist t.rows :=
  List.filter_sublist t.rows

/-- C8: the original view returned by a successful upload is the parsed
table unchanged — the partition's original component is the input itself,
and the rendered page carries exactly that table, regardless of what the
duplicate view holds. -/
theorem claim8_original_unchanged (s : Session) (fn c : String) (t : Table)
    (hfn : fn ≠ "") (hp : parseCSV c = .ok t) :
    (partition t).original = t ∧
    ∃ dupView hasDups,
      (upload_file s (some (fn, c))).1 = .page t dupView hasDups := by
  refine ⟨rfl, ?_⟩
  simp only [upload_file, if_neg hfn, hp]
  exact ⟨_, _, rfl⟩

theorem claim8_witness :
    ∃ dupView hasDups,
      (upload_file initialSession (some ("f.csv", "X,Y\na,1\nb,2\n"))).1 =
        .page ⟨["X", "Y"], [["a", "1"], ["b", "2"]]⟩ dupView hasDups :=
  (claim8_original_unchanged initialSession "f.csv" "X,Y\na,1\nb,2\n"
    ⟨["X", "Y"], [["a", "1"], ["b", "2"]]⟩ (by decide) rfl).2

/-- C2: a successful upload that finds duplicates overwrites the session's
ExportBuffer with the serialization of the new duplicate subset; one that
finds none clears it; hence after any upload followed by an upload with
zero duplicates, a download fails with a client error (and so never returns
the earlier upload's duplicates). -/
theorem claim2_buffer_lifecycle (s : Session) (fn c : String) (t : Table)
    (hfn : fn ≠ "") (hp : parseCSV c = .ok t) :
    ((duplicates t).rows ≠ [] →
      (upload_file s (some (fn, c))).2 =
        { has_duplicates := true,
          duplicates_csv := some (toCSV (duplicates t)) }) ∧
    ((duplicates t).rows = [] →
      (upload_file s (some (fn, c))).2 =
        { has_duplicates := false, duplicates_csv := none }) ∧
    (∀ (fn2 c2 : String) (t2 : Table), fn2 ≠ "" → parseCSV c2 = .ok t2 →
      (duplicates t2).rows = [] →
      download_duplicates
          ((upload_file ((upload_file s (some (fn, c))).2)
            (some (fn2, c2))).2) =
        .err 400 "No duplicates found in the last uploaded file.") := by
  have he := parseCSV_isEmptyTable hp
  refine ⟨?_, ?_, ?_⟩
  · intro hne
    have hd : (duplicates t).isEmptyTable = false := by
      rw [he]
      cases hl : (duplicates t).rows with
      | nil => exact absurd hl hne
      | cons a as => rfl
    simp [upload_file, if_neg hfn, hp, hd]
  · intro hnil
    have hd : (duplicates t).isEmptyTable = true := by
      rw [he, List.isEmpty_iff]
      exact hnil
    simp [upload_file, if_neg hfn, hp, hd]
  · intro fn2 c2 t2 hfn2 hp2 hnil2
    have he2 := parseCSV_isEmptyTable hp2
    have hd2 : (duplicates t2).isEmptyTable = true := by
      rw [he2, List.isEmpty_iff]
      exact hnil2
    have hclear : (upload_file ((upload_file s (some (fn, c))).2)
        (some (fn2, c2))).2 =
        { has_duplicates := false, duplicates_csv := none } := by
      simp [upload_file, if_neg hfn2, hp2, hd2]
    rw [hclear]
    rfl

theorem claim2_witness :
    (upload_file initialSession (some ("a.csv", "X\n1\n1\n"))).2 =
      { has_duplicates := true,
        duplicates_csv :=
          some (toCSV (duplicates ⟨["X"], [["1"], ["1"]]⟩)) } ∧
    download_duplicates
        ((upload_file
          ((upload_file initialSession (some ("a.csv", "X\n1\n1\n"))).2)
          (some ("b.csv", "X\n1\n2\n"))).2) =
      .err 400 "No duplicates found in the last uploaded file." := by
  have h := claim2_buffer_lifecycle initialSession "a.csv" "X\n1\n1\n"
    ⟨["X"], [["1"], ["1"]]⟩ (by decide) rfl
  exact ⟨h.1 (by decide),
    h.2.2 "b.csv" "X\n1\n2\n" ⟨["X"], [["1"], ["2"]]⟩ (by decide) rfl
      (by decide)⟩

/-- C4: in every reachable session state, the download operation fails with
a client-error (400) response iff no ExportBuffer is stored, and when a
buffer is stored it returns exactly those bytes as a CSV attachment named
`duplicates.csv` (the route never writes the session, so the buffer is not
modified). -/
theorem claim4_download_iff (s : Session) (h : Reachable s) :
    ((∃ msg, download_duplicates s = .err 400 msg) ↔
      s.duplicates_csv = none) ∧
    (∀ b, s.duplicates_csv = some b →
      download_duplicates s = .file "text/csv" "duplicates.csv" b) := by
  rcases reachable_cases h with rfl | ⟨b, rfl, hb⟩
  · refine ⟨iff_of_true ⟨_, rfl⟩ rfl, ?_⟩
    intro b hb
    cases hb
  · have hd : download_duplicates
        { has_duplicates := true, duplicates_csv := some b } =
        .file "text/csv" "duplicates.csv" b := by
      simp [download_duplicates, hb]
    refine ⟨iff_of_false ?_ (by simp), ?_⟩
    · rintro ⟨msg, hmsg⟩
      rw [hd] at hmsg
      cases hmsg
    · intro b' hb'
      cases hb'
      exact hd

theorem claim4_witness :
    ∃ msg, download_duplicates initialSession = .err 400 msg :=
  (claim4_download_iff initialSession Reachable.init).1.mpr rfl

/-- C9: an upload whose content parses to a table with zero data rows
succeeds with the rendered page showing no duplicate view and a false
`has_duplicates` flag, the duplicate count is 0, the duplicate subset is
empty, and the resulting session stores no ExportBuffer. -/
theorem claim9_empty_table (s : Session) (fn c : String) (t : Table)
    (hfn : fn ≠ "") (hp : parseCSV c = .ok t) (hrows : t.rows = []) :
    upload_file s (some (fn, c)) =
      (.page t none false,
        { has_duplicates := false, duplicates_csv := none }) ∧
    (partition t).count = 0 ∧ (partition t).dups.rows = [] := by
  have hd : (duplicates t).rows = [] := by simp [duplicates, hrows]
  have he : (duplicates t).isEmptyTable = true := by
    simp [Table.isEmptyTable, hd]
  refine ⟨?_, ?_, hd⟩
  · simp [upload_file, if_neg hfn, hp, he]
  · simp [partition, hd]

theorem claim9_witness :
    upload_file initialSession (some ("f.csv", "A,B\n")) =
      (.page ⟨["A", "B"], []⟩ none false,
        { has_duplicates := false, duplicates_csv := none }) :=
  (claim9_empty_table initialSession "f.csv" "A,B\n" ⟨["A", "B"], []⟩
    (by decide) rfl rfl).1

/-- C10: after any sequence of completed upload requests the session
satisfies the invariant that the `has_duplicates` flag is set iff a
nonempty `duplicates_csv` string is stored; consequently the download
route's second failure branch (flag set but data missing or empty) is
unreachable. -/
theorem claim10_flag_data_invariant (s : Session) (h : Reachable s) :
    (s.has_duplicates = true ↔
      ∃ b, s.duplicates_csv = some b ∧ b ≠ "") ∧
    ¬ (s.has_duplicates = true ∧
        (s.duplicates_csv = none ∨ s.duplicates_csv = some "")) ∧
    download_duplicates s ≠
      .err 400 "Duplicate data not available. Please upload a file first." := by
  rcases reachable_cases h with rfl | ⟨b, rfl, hb⟩
  · exact ⟨by simp, by simp, by decide⟩
  · refine ⟨iff_of_true rfl ⟨b, rfl, hb⟩, ?_, ?_⟩
    · rintro ⟨-, h2 | h2⟩
      · cases h2
      · exact hb (by injection h2)
    · have hd : download_duplicates
          { has_duplicates := true, duplicates_csv := some b } =
          .file "text/csv" "duplicates.csv" b := by
        simp [download_duplicates, hb]
      rw [hd]
      intro h2
      cases h2

theorem claim10_witness :
    download_duplicates
        (upload_file initialSession (some ("f.csv", "X\n1\n1\n"))).2 ≠
      .err 400 "Duplicate data not available. Please upload a file first." :=
  (claim10_flag_data_invariant _
    (Reachable.step initialSession _ Reachable.init)).2.2

/-- C6: serializing a duplicate subset consisting of two equal rows,
re-loading the serialized bytes through the Table Loader, and re-running
the Duplicate Partitioner yields the same row content, flags both equal
rows again, and gives count 2.  Column names and cells are assumed
nonempty and free of the delimiter characters, the modelling boundary of
the unquoted CSV embedding. -/
theorem claim6_roundtrip (cols r : List String)
    (hlen : r.length = cols.length) (hcols : cols ≠ [])
    (hwf : ∀ s ∈ cols ++ r, s ≠ "" ∧ ',' ∉ s.toList ∧ '\n' ∉ s.toList) :
    parseCSV (toCSV ⟨cols, [r, r]⟩) = .ok ⟨cols, [r, r]⟩ ∧
    (partition ⟨cols, [r, r]⟩).count = 2 ∧
    dupFlags ⟨cols, [r, r]⟩ = [true, true] := by
  have hr : r ≠ [] := by
    intro h
    apply hcols
    rw [h] at hlen
    exact (List.length_eq_zero.mp hlen.symm)
  have hwfc : ∀ s ∈ cols, s ≠ "" ∧ ',' ∉ s.toList ∧ '\n' ∉ s.toList :=
    fun s hs => hwf s (List.mem_append_left _ hs)
  have hwfr : ∀ s ∈ r, s ≠ "" ∧ ',' ∉ s.toList ∧ '\n' ∉ s.toList :=
    fun s hs => hwf s (List.mem_append_right _ hs)
  have hmapne : ∀ (xs : List String), xs ≠ [] →
      xs.map String.toList ≠ [] :=
    fun xs hxs => by simpa [List.map_eq_nil_iff] using hxs
  have hcellsne : ∀ (xs : List String),
      (∀ s ∈ xs, s ≠ "" ∧ ',' ∉ s.toList ∧ '\n' ∉ s.toList) →
      ∀ p ∈ xs.map String.toList, p ≠ [] := by
    intro xs h p hp
    rcases List.mem_map.mp hp with ⟨s, hs, rfl⟩
    intro he
    exact (h s hs).1 ((string_toList_eq_nil_iff s).mp he)
  have hnocomma : ∀ (xs : List String),
      (∀ s ∈ xs, s ≠ "" ∧ ',' ∉ s.toList ∧ '\n' ∉ s.toList) →
      ∀ p ∈ xs.map String.toList, ',' ∉ p := by
    intro xs h p hp
    rcases List.mem_map.mp hp with ⟨s, hs, rfl⟩
    exact (h s hs).2.1
  have hnonl : ∀ (xs : List String),
      (∀ s ∈ xs, s ≠ "" ∧ ',' ∉ s.toList ∧ '\n' ∉ s.toList) →
      ∀ p ∈ xs.map String.toList, '\n' ∉ p := by
    intro xs h p hp
    rcases List.mem_map.mp hp with ⟨s, hs, rfl⟩
    exact (h s hs).2.2
  set L0 := joinChars ',' (cols.map String.toList) with hL0
  set L1 := joinChars ',' (r.map String.toList) with hL1
  have hL0ne : L0 ≠ [] :=
    joinChars_ne_nil ',' _ (hmapne cols hcols) (hcellsne cols hwfc)
  have hL1ne : L1 ≠ [] :=
    joinChars_ne_nil ',' _ (hmapne r hr) (hcellsne r hwfr)
  have hL0nl : '\n' ∉ L0 :=
    not_mem_joinChars (by decide) (hnonl cols hwfc)
  have hL1nl : '\n' ∉ L1 :=
    not_mem_joinChars (by decide) (hnonl r hwfr)
  have hsplit : splitOnChar '\n' (toCSV ⟨cols, [r, r]⟩).toList =
      [L0, L1, L1, []] := by
    have h1 : (toCSV ⟨cols, [r, r]⟩).toList =
        joinChars '\n' [L0, L1, L1] ++ ['\n'] := rfl
    rw [h1, splitOnChar_append_delim,
      splitOnChar_joinChars '\n' [L0, L1, L1] (by simp) ?hmem]
    case hmem =>
      intro p hp
      simp only [List.mem_cons, List.not_mem_nil, or_false] at hp
      rcases hp with rfl | rfl | rfl
      · exact hL0nl
      · exact hL1nl
      · exact hL1nl
    rfl
  have hm0 : String.mk L0 ≠ "" :=
    fun h => hL0ne (congrArg String.toList h)
  have hm1 : String.mk L1 ≠ "" :=
    fun h => hL1ne (congrArg String.toList h)
  have hfilter : (splitField '\n' (toCSV ⟨cols, [r, r]⟩)).filter
      (fun l => l ≠ "") = [String.mk L0, String.mk L1, String.mk L1] := by
    simp only [splitField, hsplit, List.map_cons, List.map_nil]
    have hmk : String.mk ([] : List Char) = "" := rfl
    rw [hmk]
    simp [List.filter, hm0, hm1]
  have hdr : splitField ',' (String.mk L0) = cols := by
    simp only [splitField]
    have h2 : (String.mk L0).toList = L0 := rfl
    rw [h2, hL0,
      splitOnChar_joinChars ',' _ (hmapne cols hcols) (hnocomma cols hwfc),
      List.map_map]
    have h3 : String.mk ∘ String.toList = id := funext string_mk_toList
    rw [h3, List.map_id]
  have hbody : splitField ',' (String.mk L1) = r := by
    simp only [splitField]
    have h2 : (String.mk L1).toList = L1 := rfl
    rw [h2, hL1,
      splitOnChar_joinChars ',' _ (hmapne r hr) (hnocomma r hwfr),
      List.map_map]
    have h3 : String.mk ∘ String.toList = id := funext string_mk_toList
    rw [h3, List.map_id]
  have hcount : List.count r [r, r] = 2 := by
    simp [List.count_cons]
  have hdupl : (duplicates ⟨cols, [r, r]⟩).rows = [r, r] := by
    simp [duplicates, List.filter, hcount]
  refine ⟨?_, ?_, ?_⟩
  · unfold parseCSV
    rw [hfilter]
    dsimp only
    rw [hdr]
    simp only [List.map_cons, List.map_nil, hbody]
    simp [hlen]
  · simp [partition, hdupl]
  · simp [dupFlags, hcount]

theorem claim6_witness :
    parseCSV (toCSV ⟨["X", "Y"], [["a", "1"], ["a", "1"]]⟩) =
      .ok ⟨["X", "Y"], [["a", "1"], ["a", "1"]]⟩ ∧
    (partition ⟨["X", "Y"], [["a", "1"], ["a", "1"]]⟩).count = 2 ∧
    dupFlags ⟨["X", "Y"], [["a", "1"], ["a", "1"]]⟩ = [true, true] :=
  claim6_roundtrip ["X", "Y"] ["a", "1"] (by decide) (by decide) (by decide)

end Coinbag
